import Mathlib

/-!
Shallow embedding of the 2-D grid library `grid_2d.rs` (coordinates, compass
directions, generic board container) together with proofs about its behaviour.

Modelling conventions:
* Rust `i32` values are modelled as unbounded `Int`; `usize` values as `Nat`.
* Rust `/` and `%` on `i32` are truncated division (`Int.tdiv` / `Int.tmod`).
* Operations that can panic (division by zero, out-of-range slice indexing)
  are modelled as `Option`-returning functions where `none` encodes the panic.
-/

namespace Grid2d

/-- Rust truncated division `a / b` on `i32`; `none` encodes the
division-by-zero panic. -/
def rustDiv? (a b : Int) : Option Int :=
  if b = 0 then none else some (a.tdiv b)

/-- Rust remainder `a % b` on `i32` (truncated, sign of the dividend);
`none` encodes the division-by-zero panic. -/
def rustRem? (a b : Int) : Option Int :=
  if b = 0 then none else some (a.tmod b)

/-- `num::Integer::gcd` on `i32`: the non-negative greatest common divisor,
with `gcd 0 0 = 0`. -/
def rustGcd (a b : Int) : Int := (Int.gcd a b : Int)

/-- Rust `i32` addition `a + b` with the default (debug-profile) overflow
check: `none` encodes the overflow panic once the exact sum leaves the `i32`
range.  (With release-profile semantics the sum would instead wrap by
`2^32`; either way the exact sum is lost outside the `i32` range.) -/
def rustAdd? (a b : Int) : Option Int :=
  if -(2 ^ 31) ≤ a + b ∧ a + b < 2 ^ 31 then some (a + b) else none

/-- Rust `as usize` cast of an `i32` value: sign extension to 64 bits then
reinterpretation as unsigned, so negative values become huge indices. -/
def i32ToUsize (i : Int) : Nat := (i.emod (2 ^ 64)).toNat

/-- The `i32` range of both components of a coordinate. -/
def coordIsI32 (r c : Int) : Prop :=
  -(2 ^ 31) ≤ r ∧ r < 2 ^ 31 ∧ -(2 ^ 31) ≤ c ∧ c < 2 ^ 31

instance (r c : Int) : Decidable (coordIsI32 r c) := by
  unfold coordIsI32
  infer_instance

/-- `Coord(row, col)`: a (row, col) coordinate pair or vector over `i32`. -/
structure Coord where
  row : Int
  col : Int
deriving DecidableEq

/-- `Coord::simplify`: divide both components by their greatest common
divisor.  The Rust division panics when that gcd is zero, i.e. exactly on the
zero vector; `none` encodes the panic. -/
def Coord.simplify (c : Coord) : Option Coord :=
  let gcd := rustGcd c.row c.col
  (rustDiv? c.row gcd).bind fun r =>
    (rustDiv? c.col gcd).map fun k => Coord.mk r k

/-- Componentwise subtraction, `impl Sub for Coord`. -/
def Coord.sub (a b : Coord) : Coord := ⟨a.row - b.row, a.col - b.col⟩

/-- The eight compass directions of `Dir`. -/
inductive Dir where
  | North
  | NorthEast
  | East
  | SouthEast
  | South
  | SouthWest
  | West
  | NorthWest
deriving DecidableEq

/-- `Dir::rotate_right`: rotate the direction 90 degrees clockwise. -/
def Dir.rotate_right : Dir → Dir
  | .North => .East
  | .NorthEast => .SouthEast
  | .East => .South
  | .SouthEast => .SouthWest
  | .South => .West
  | .SouthWest => .NorthWest
  | .West => .North
  | .NorthWest => .NorthEast

/-- `Dir::rotate_left`: rotate the direction 90 degrees counter-clockwise. -/
def Dir.rotate_left : Dir → Dir
  | .North => .West
  | .NorthEast => .NorthWest
  | .East => .North
  | .SouthEast => .NorthEast
  | .South => .East
  | .SouthWest => .SouthEast
  | .West => .South
  | .NorthWest => .SouthWest

/-- `Dir::rotate_right_45`: rotate the direction 45 degrees clockwise. -/
def Dir.rotate_right_45 : Dir → Dir
  | .North => .NorthEast
  | .NorthEast => .East
  | .East => .SouthEast
  | .SouthEast => .South
  | .South => .SouthWest
  | .SouthWest => .West
  | .West => .NorthWest
  | .NorthWest => .North

/-- `Dir::to_degrees`: the canonical angle of the direction, a `u32` between
0 and 359 (North is 0, increasing clockwise in steps of 45). -/
def Dir.to_degrees : Dir → Nat
  | .North => 0
  | .NorthEast => 45
  | .East => 90
  | .SouthEast => 135
  | .South => 180
  | .SouthWest => 225
  | .West => 270
  | .NorthWest => 315

/-- `Dir::offset_from`: signed degree offset measuring the rotation needed to
get from `other` to `self`, normalized into `(-180, 180]` with `+180`
preferred over `-180`. -/
def Dir.offset_from (self other : Dir) : Int :=
  let self_degrees : Int := self.to_degrees
  let other_degrees : Int := other.to_degrees
  let diff := self_degrees - other_degrees
  let diff := if 180 < diff then diff - 360 else if diff ≤ -180 then diff + 360 else diff
  if diff = -180 then 180 else diff

/-- `impl Add<Dir> for &Coord`: displace a coordinate by one step in the given
compass direction (row grows downwards, column grows rightwards). -/
def Coord.addDir (c : Coord) : Dir → Coord
  | .North => ⟨c.row - 1, c.col⟩
  | .NorthEast => ⟨c.row - 1, c.col + 1⟩
  | .East => ⟨c.row, c.col + 1⟩
  | .SouthEast => ⟨c.row + 1, c.col + 1⟩
  | .South => ⟨c.row + 1, c.col⟩
  | .SouthWest => ⟨c.row + 1, c.col - 1⟩
  | .West => ⟨c.row, c.col - 1⟩
  | .NorthWest => ⟨c.row - 1, c.col - 1⟩

/-- `Coord::cardinal_neighbours`: the four cardinal neighbours, clockwise
starting from the north. -/
def Coord.cardinal_neighbours (c : Coord) : List Coord :=
  [c.addDir .North, c.addDir .East, c.addDir .South, c.addDir .West]

/-- `Coord::wrap_to_size`: fold both components into the board dimensions via
`(x % n + n) % n`, all computed in `i32`; `none` encodes a panic, either the
division-by-zero panic when a dimension is zero or the overflow panic of the
intermediate sum `x % n + n` when it exceeds `i32::MAX`. -/
def Coord.wrap_to_size (c : Coord) (size : Coord) : Option Coord :=
  (rustRem? c.row size.row).bind fun r1 =>
    (rustAdd? r1 size.row).bind fun r2 =>
      (rustRem? r2 size.row).bind fun row =>
        (rustRem? c.col size.col).bind fun c1 =>
          (rustAdd? c1 size.col).bind fun c2 =>
            (rustRem? c2 size.col).map fun col => Coord.mk row col

/-- `impl From<Coord> for Dir`: simplify the vector, then match it against the
eight canonical unit displacement vectors, in the order of the Rust `match`
arms.  `none` encodes a panic: either the invalid-direction panic of the final
match arm or the division-by-zero panic inside `simplify` on the zero
vector. -/
def Dir.fromCoord (coord : Coord) : Option Dir :=
  coord.simplify.bind fun s =>
    if s = ⟨-1, 0⟩ then some .North
    else if s = ⟨-1, 1⟩ then some .NorthEast
    else if s = ⟨0, 1⟩ then some .East
    else if s = ⟨1, 1⟩ then some .SouthEast
    else if s = ⟨1, 0⟩ then some .South
    else if s = ⟨1, -1⟩ then some .SouthWest
    else if s = ⟨0, -1⟩ then some .West
    else if s = ⟨-1, -1⟩ then some .NorthWest
    else none

/-- `Board<T>`: a grid stored as a matrix of rows. -/
structure Board (T : Type) where
  matrix : List (List T)
deriving DecidableEq

variable {T : Type}

/-- `Board::size`: `(matrix.len(), matrix[0].len())`.  The indexing of row 0
panics when the matrix has no rows; `none` encodes that panic. -/
def Board.size? (b : Board T) : Option (Nat × Nat) :=
  match b.matrix with
  | [] => none
  | r :: _ => some (b.matrix.length, r.length)

/-- `Board::get`: bounds-checked lookup.  `some none` is Rust `None` (out of
bounds), `some (some v)` is Rust `Some(v)`, and `none` encodes a panic (from
`size` on an empty matrix, or from indexing a short row of a ragged
matrix). -/
def Board.get (b : Board T) (c : Coord) : Option (Option T) :=
  match b.size? with
  | none => none
  | some (rows, cols) =>
    if c.row < 0 ∨ rows ≤ i32ToUsize c.row ∨ c.col < 0 ∨ cols ≤ i32ToUsize c.col then
      some none
    else
      match (b.matrix[i32ToUsize c.row]?).bind fun row => row[i32ToUsize c.col]? with
      | none => none
      | some v => some (some v)

/-- `Board::set`: unchecked write `matrix[row][col] = val`; `none` encodes the
index-out-of-range panic. -/
def Board.set (b : Board T) (c : Coord) (val : T) : Option (Board T) :=
  match b.matrix[i32ToUsize c.row]? with
  | none => none
  | some row =>
    if i32ToUsize c.col < row.length then
      some ⟨b.matrix.set (i32ToUsize c.row) (row.set (i32ToUsize c.col) val)⟩
    else none

/-- `Board::from_size`: build a board of the given dimensions with every cell
filled with a clone of `item` (the Rust ranges `0..n` are empty for
non-positive `n`). -/
def Board.from_size (size : Coord) (item : T) : Board T :=
  ⟨List.replicate size.row.toNat (List.replicate size.col.toNat item)⟩

/-- The element stored in row `c.row`, column `c.col` of the matrix, when both
indices exist; the reference reading of "the stored element at `c`" for
coordinates with non-negative components. -/
def Board.cellAt (b : Board T) (c : Coord) : Option T :=
  (b.matrix[c.row.toNat]?).bind fun row => row[c.col.toNat]?

/-! ### Arithmetic helper lemmas -/

lemma i32ToUsize_eq_toNat {i : Int} (h0 : 0 ≤ i) (h1 : i < 2 ^ 64) :
    i32ToUsize i = i.toNat := by
  unfold i32ToUsize
  rw [show i.emod (2 ^ 64) = i % 2 ^ 64 from rfl, Int.emod_eq_of_lt h0 h1]

lemma neg_lt_tmod (a : Int) {n : Int} (h : 0 < n) : -n < a.tmod n := by
  rcases le_or_lt 0 a with ha | ha
  · have := Int.tmod_nonneg n ha
    omega
  · have h1 : (-a).tmod n < n := Int.tmod_lt_of_pos (-a) h
    rw [Int.tmod_def, Int.neg_tdiv] at h1
    rw [Int.tmod_def]
    have h2 : -a - n * -a.tdiv n = -(a - n * a.tdiv n) := by ring
    rw [h2] at h1
    omega

lemma tmod_add_self_tmod (a : Int) {n : Int} (h : 0 < n) :
    (a.tmod n + n).tmod n = a % n := by
  have hnn : 0 ≤ a.tmod n + n := by
    have := neg_lt_tmod a h
    omega
  rw [Int.tmod_eq_emod hnn (le_of_lt h)]
  have hdef : a.tmod n = a + n * (-a.tdiv n) := by
    have := Int.tmod_add_tdiv a n
    have h3 : a + n * -a.tdiv n = a - n * a.tdiv n := by ring
    omega
  rw [hdef, show a + n * -a.tdiv n + n = a + n * (1 + -a.tdiv n) by ring,
    Int.add_mul_emod_self_left]

/-! ### Simplification of coordinate vectors (C2, C6) -/

/-- C2 counterexample: simplifying the zero vector does not return `(0,0)`;
`gcd(0,0) = 0`, so the Rust division panics (modelled as `none`) instead of
acting as the identity. -/
theorem simplify_zero_not_identity : Coord.simplify ⟨0, 0⟩ ≠ some ⟨0, 0⟩ := by decide

/-- C2 amended: `simplify()` applied to the zero vector `(0,0)` computes
`gcd(0,0) = 0` and divides by zero, a fatal panic (modelled as `none`); the
degenerate case is not treated as an identity. -/
theorem simplify_zero_panics : Coord.simplify ⟨0, 0⟩ = none := by decide

lemma rustGcd_def (a b : Int) : rustGcd a b = (Int.gcd a b : Int) := rfl

lemma simplify_eq_some {c : Coord} (h : rustGcd c.row c.col ≠ 0) :
    c.simplify = some ⟨c.row.tdiv (rustGcd c.row c.col), c.col.tdiv (rustGcd c.row c.col)⟩ := by
  unfold Coord.simplify rustDiv?
  simp [h]

/-- C6: simplifying a non-zero vector succeeds, yields components whose gcd is
1 (so they share no common factor greater than 1), is idempotent, and sends
`(0,6)` to `(0,1)`. -/
theorem simplify_coprime_idem (c : Coord) (h : c ≠ ⟨0, 0⟩) :
    (∃ s, c.simplify = some s ∧ Int.gcd s.row s.col = 1 ∧ s.simplify = some s) ∧
    Coord.simplify ⟨0, 6⟩ = some ⟨0, 1⟩ := by
  refine ⟨?_, by decide⟩
  have hg : Int.gcd c.row c.col ≠ 0 := by
    rw [Ne, Int.gcd_eq_zero_iff]
    rintro ⟨h1, h2⟩
    apply h
    cases c
    simp_all
  have hgZ : rustGcd c.row c.col ≠ 0 := by
    rw [rustGcd_def]
    exact_mod_cast hg
  have htr : c.row.tdiv (rustGcd c.row c.col) = c.row / (Int.gcd c.row c.col : Int) := by
    rw [rustGcd_def]
    exact Int.tdiv_eq_ediv_of_dvd Int.gcd_dvd_left
  have htc : c.col.tdiv (rustGcd c.row c.col) = c.col / (Int.gcd c.row c.col : Int) := by
    rw [rustGcd_def]
    exact Int.tdiv_eq_ediv_of_dvd Int.gcd_dvd_right
  have hcop : Int.gcd (c.row / (Int.gcd c.row c.col : Int))
      (c.col / (Int.gcd c.row c.col : Int)) = 1 :=
    Int.gcd_div_gcd_div_gcd (Nat.pos_of_ne_zero hg)
  have hone : Int.gcd (c.row.tdiv (rustGcd c.row c.col)) (c.col.tdiv (rustGcd c.row c.col)) = 1 := by
    rw [htr, htc]
    exact hcop
  refine ⟨⟨c.row.tdiv (rustGcd c.row c.col), c.col.tdiv (rustGcd c.row c.col)⟩,
    simplify_eq_some hgZ, hone, ?_⟩
  have hone2 : rustGcd (c.row.tdiv (rustGcd c.row c.col)) (c.col.tdiv (rustGcd c.row c.col)) = 1 := by
    rw [rustGcd_def, hone]
    rfl
  rw [simplify_eq_some (by rw [hone2]; norm_num), hone2, Int.tdiv_one, Int.tdiv_one]

/-- C6 witness: the theorem instantiated at the non-zero vector `(4,6)`. -/
theorem simplify_coprime_idem_wit :
    (Coord.mk 4 6 ≠ ⟨0, 0⟩) ∧
    ((∃ s, Coord.simplify ⟨4, 6⟩ = some s ∧ Int.gcd s.row s.col = 1 ∧ s.simplify = some s) ∧
      Coord.simplify ⟨0, 6⟩ = some ⟨0, 1⟩) :=
  ⟨by decide, simplify_coprime_idem ⟨4, 6⟩ (by decide)⟩

/-! ### Direction algebra (C4, C5, C7) -/

/-- C4: `offset_from` returns the signed angular difference from `other` to
`self` (congruent modulo 360 to the difference of the canonical angles),
normalized into `(-180, 180]` so that antipodal pairs give `+180` and never
`-180`, with the four documented example values. -/
theorem offset_from_spec :
    (∀ a b : Dir, -180 < a.offset_from b ∧ a.offset_from b ≤ 180 ∧
      (a.offset_from b - ((a.to_degrees : Int) - (b.to_degrees : Int))) % 360 = 0) ∧
    Dir.offset_from .North .East = -90 ∧
    Dir.offset_from .East .North = 90 ∧
    Dir.offset_from .North .NorthEast = -45 ∧
    Dir.offset_from .NorthEast .SouthWest = 180 := by
  refine ⟨fun a b => ?_, by decide, by decide, by decide, by decide⟩
  cases a <;> cases b <;> exact ⟨by decide, by decide, by decide⟩

/-- C5: rotating right four times, or right-by-45 eight times, is the
identity, and `rotate_left` is the two-sided inverse of `rotate_right`. -/
theorem rotate_closure (d : Dir) :
    d.rotate_right.rotate_right.rotate_right.rotate_right = d ∧
    d.rotate_right_45.rotate_right_45.rotate_right_45.rotate_right_45.rotate_right_45.rotate_right_45.rotate_right_45.rotate_right_45 = d ∧
    d.rotate_right.rotate_left = d ∧
    d.rotate_left.rotate_right = d := by
  cases d <;> exact ⟨rfl, rfl, rfl, rfl⟩

/-- C7: `cardinal_neighbours` is exactly the list of displacements by North,
East, South, West in that order, under the row-down/col-right screen
convention, and `(5,5)` yields `[(4,5),(5,6),(6,5),(5,4)]`. -/
theorem cardinal_neighbours_spec :
    (∀ c : Coord, c.cardinal_neighbours =
        [c.addDir .North, c.addDir .East, c.addDir .South, c.addDir .West] ∧
      c.cardinal_neighbours =
        [⟨c.row - 1, c.col⟩, ⟨c.row, c.col + 1⟩, ⟨c.row + 1, c.col⟩, ⟨c.row, c.col - 1⟩]) ∧
    (Coord.mk 5 5).cardinal_neighbours = [⟨4, 5⟩, ⟨5, 6⟩, ⟨6, 5⟩, ⟨5, 4⟩] :=
  ⟨fun _ => ⟨rfl, rfl⟩, by decide⟩

/-! ### Coordinate-to-direction conversion (C8, C10) -/

/-- C8: `Dir::from` on a coordinate succeeds with direction `d` exactly when
the simplified vector is the canonical unit displacement vector of `d`, and
otherwise panics (modelled as `none`), as on the non-unit vector `(2,1)`. -/
theorem fromCoord_spec :
    (∀ (c : Coord) (d : Dir),
      Dir.fromCoord c = some d ↔ c.simplify = some ((Coord.mk 0 0).addDir d)) ∧
    Dir.fromCoord ⟨2, 1⟩ = none := by
  refine ⟨fun c d => ?_, by decide⟩
  unfold Dir.fromCoord
  cases hs : c.simplify with
  | none => simp
  | some s =>
    rw [Option.some_bind, Option.some.injEq]
    constructor
    · intro hchain
      split_ifs at hchain <;> (cases hchain; subst_vars; decide)
    · intro hvec
      subst hvec
      cases d <;> decide

lemma addDir_sub (c : Coord) (d : Dir) :
    (c.addDir d).sub c = (Coord.mk 0 0).addDir d := by
  cases d <;> simp [Coord.addDir, Coord.sub, Coord.mk.injEq]

/-- C10: for every coordinate `c` and direction `d`, the displacement
`(c + d) - c` converts back to `d` through `Dir::from`. -/
theorem dir_displacement_roundtrip (c : Coord) (d : Dir) :
    Dir.fromCoord ((c.addDir d).sub c) = some d := by
  rw [addDir_sub]
  cases d <;> decide

/-! ### Wrapping (C3) -/

/-- C3 counterexample: with `c = (2147483646, 0)` and `size = (2147483647, 1)`
— all four values valid `i32`, both dimensions positive, and `c` already
inside `[0, rows) × [0, cols)` — the intermediate sum `c.row % rows + rows`
equals `4294967293` and overflows `i32`, so `wrap_to_size` panics (modelled
`none`; with release-profile wrapping it would instead return the
out-of-range row `-3`) rather than returning `c` unchanged with components in
range. -/
theorem wrap_to_size_overflow_cex :
    (0 : Int) < 2147483647 ∧ (0 : Int) < 1 ∧
    (0 ≤ (2147483646 : Int) ∧ (2147483646 : Int) < 2147483647 ∧
      0 ≤ (0 : Int) ∧ (0 : Int) < 1) ∧
    Coord.wrap_to_size ⟨2147483646, 0⟩ ⟨2147483647, 1⟩ = none := by decide

/-- C3 amended: for positive board dimensions of at most `2^30` (so that the
intermediate sum `x % n + n`, which is strictly below `2n`, cannot overflow
`i32`), `wrap_to_size` succeeds and both components of the result are the
Euclidean (non-negative) remainders, hence lie in `[0, rows) × [0, cols)`; a
coordinate already in that range is returned unchanged. -/
theorem wrap_to_size_spec (c size : Coord) (hr : 0 < size.row) (hc : 0 < size.col)
    (hr30 : size.row ≤ 2 ^ 30) (hc30 : size.col ≤ 2 ^ 30) :
    ∃ w, c.wrap_to_size size = some w ∧
      w.row = c.row % size.row ∧ w.col = c.col % size.col ∧
      0 ≤ w.row ∧ w.row < size.row ∧ 0 ≤ w.col ∧ w.col < size.col ∧
      ((0 ≤ c.row ∧ c.row < size.row ∧ 0 ≤ c.col ∧ c.col < size.col) → w = c) := by
  have hpp : (2 : Int) ^ 31 = 2 * 2 ^ 30 := by norm_num
  have hp31 : (0 : Int) < 2 ^ 31 := by positivity
  have haddr : rustAdd? (c.row.tmod size.row) size.row =
      some (c.row.tmod size.row + size.row) := by
    unfold rustAdd?
    rw [if_pos]
    have h1 := neg_lt_tmod c.row hr
    have h2 := Int.tmod_lt_of_pos c.row hr
    constructor <;> omega
  have haddc : rustAdd? (c.col.tmod size.col) size.col =
      some (c.col.tmod size.col + size.col) := by
    unfold rustAdd?
    rw [if_pos]
    have h1 := neg_lt_tmod c.col hc
    have h2 := Int.tmod_lt_of_pos c.col hc
    constructor <;> omega
  refine ⟨⟨(c.row.tmod size.row + size.row).tmod size.row,
    (c.col.tmod size.col + size.col).tmod size.col⟩, ?_, ?_, ?_, ?_, ?_, ?_, ?_, ?_⟩
  · simp only [Coord.wrap_to_size, rustRem?, if_neg hr.ne', if_neg hc.ne',
      Option.some_bind, haddr, haddc]
    rfl
  · exact tmod_add_self_tmod c.row hr
  · exact tmod_add_self_tmod c.col hc
  · rw [tmod_add_self_tmod c.row hr]
    exact Int.emod_nonneg c.row hr.ne'
  · rw [tmod_add_self_tmod c.row hr]
    exact Int.emod_lt_of_pos c.row hr
  · rw [tmod_add_self_tmod c.col hc]
    exact Int.emod_nonneg c.col hc.ne'
  · rw [tmod_add_self_tmod c.col hc]
    exact Int.emod_lt_of_pos c.col hc
  · rintro ⟨h1, h2, h3, h4⟩
    cases c with
    | mk cr cc =>
      simp only [Coord.mk.injEq]
      constructor
      · rw [tmod_add_self_tmod cr hr]
        exact Int.emod_eq_of_lt h1 h2
      · rw [tmod_add_self_tmod cc hc]
        exact Int.emod_eq_of_lt h3 h4

/-- C3 witness: the amended theorem instantiated at `c = (7, -5)`,
`size = (4, 4)`. -/
theorem wrap_to_size_spec_wit :
    (0:Int) < 4 ∧ (0:Int) < 4 ∧ (4:Int) ≤ 2 ^ 30 ∧ (4:Int) ≤ 2 ^ 30 ∧
    (∃ w : Coord, Coord.wrap_to_size ⟨7, -5⟩ ⟨4, 4⟩ = some w ∧
      w.row = 7 % 4 ∧ w.col = -5 % 4 ∧
      0 ≤ w.row ∧ w.row < 4 ∧ 0 ≤ w.col ∧ w.col < 4 ∧
      ((0 ≤ (7:Int) ∧ (7:Int) < 4 ∧ 0 ≤ (-5:Int) ∧ (-5:Int) < 4) → w = ⟨7, -5⟩)) :=
  ⟨by decide, by decide, by decide, by decide,
    wrap_to_size_spec ⟨7, -5⟩ ⟨4, 4⟩ (by decide) (by decide) (by decide) (by decide)⟩

/-! ### Board lookup and mutation (C1, C9) -/

lemma coord_ext {a b : Coord} (h1 : a.row = b.row) (h2 : a.col = b.col) : a = b := by
  cases a
  cases b
  simp_all

lemma size?_spec (b : Board T) {rows cols : Nat} (hsz : b.size? = some (rows, cols)) :
    rows = b.matrix.length ∧ 0 < b.matrix.length := by
  cases hm : b.matrix with
  | nil =>
    have hnone : b.size? = none := by
      unfold Board.size?
      rw [hm]
    rw [hnone] at hsz
    simp at hsz
  | cons r0 rest =>
    have hval : b.size? = some (b.matrix.length, r0.length) := by
      unfold Board.size?
      rw [hm]
    rw [hval] at hsz
    simp only [Option.some.injEq, Prod.mk.injEq] at hsz
    rw [hm] at hsz
    exact ⟨hsz.1.symm, by simp⟩

lemma get_of_rect_inbounds (b : Board T) (rows cols : Nat) (c : Coord)
    (hsz : b.size? = some (rows, cols))
    (hrect : ∀ row ∈ b.matrix, row.length = cols)
    (hr0 : 0 ≤ c.row) (hr1 : c.row < (rows : Int))
    (hc0 : 0 ≤ c.col) (hc1 : c.col < (cols : Int))
    (h31r : c.row < 2 ^ 31) (h31c : c.col < 2 ^ 31) :
    b.get c = some (b.cellAt c) ∧ (b.cellAt c).isSome = true := by
  have hpow : (2 : Int) ^ 31 < 2 ^ 64 := by norm_num
  have eqr : i32ToUsize c.row = c.row.toNat := i32ToUsize_eq_toNat hr0 (lt_trans h31r hpow)
  have eqc : i32ToUsize c.col = c.col.toNat := i32ToUsize_eq_toNat hc0 (lt_trans h31c hpow)
  obtain ⟨hrows, -⟩ := size?_spec b hsz
  have hrowlt : c.row.toNat < b.matrix.length := by omega
  have hrowget : b.matrix[c.row.toNat]? = some (b.matrix[c.row.toNat]) :=
    List.getElem?_eq_getElem hrowlt
  have hlen : (b.matrix[c.row.toNat]).length = cols := hrect _ (List.getElem_mem hrowlt)
  have hcollt : c.col.toNat < (b.matrix[c.row.toNat]).length := by omega
  have hcolget : (b.matrix[c.row.toNat])[c.col.toNat]? =
      some ((b.matrix[c.row.toNat])[c.col.toNat]) := List.getElem?_eq_getElem hcollt
  have hcell : b.cellAt c = some ((b.matrix[c.row.toNat])[c.col.toNat]) := by
    unfold Board.cellAt
    rw [hrowget, Option.some_bind, hcolget]
  refine ⟨?_, by rw [hcell]; rfl⟩
  simp only [Board.get, hsz]
  rw [eqr, eqc,
    if_neg (by omega : ¬(c.row < 0 ∨ rows ≤ c.row.toNat ∨ c.col < 0 ∨ cols ≤ c.col.toNat)),
    hrowget, Option.some_bind, hcolget, hcell]

lemma get_of_rect_outbounds (b : Board T) (rows cols : Nat) (c : Coord)
    (hsz : b.size? = some (rows, cols))
    (hout : ¬(0 ≤ c.row ∧ c.row < (rows : Int) ∧ 0 ≤ c.col ∧ c.col < (cols : Int)))
    (h31r : c.row < 2 ^ 31) (h31c : c.col < 2 ^ 31) :
    b.get c = some none := by
  have hpow : (2 : Int) ^ 31 < 2 ^ 64 := by norm_num
  simp only [Board.get, hsz]
  rcases lt_or_le c.row 0 with hneg | hr0
  · rw [if_pos (Or.inl hneg)]
  · have eqr : i32ToUsize c.row = c.row.toNat := i32ToUsize_eq_toNat hr0 (lt_trans h31r hpow)
    rcases lt_or_le c.col 0 with hcneg | hc0
    · rw [if_pos (Or.inr (Or.inr (Or.inl hcneg)))]
    · have eqc : i32ToUsize c.col = c.col.toNat := i32ToUsize_eq_toNat hc0 (lt_trans h31c hpow)
      rw [eqr, eqc, if_pos (by omega :
        c.row < 0 ∨ rows ≤ c.row.toNat ∨ c.col < 0 ∨ cols ≤ c.col.toNat)]

/-- C1 counterexample: on the board with an empty matrix — constructible with
`Board::new(vec![])` — `get((0,0))` calls `size()`, which indexes row 0 of the
empty matrix and panics (modelled as `none`); so `get` does not avoid panics on
every board. -/
theorem board_get_empty_matrix_panics :
    (Board.mk ([] : List (List Bool))).get ⟨0, 0⟩ = none := rfl

/-- C1 amended: for every board satisfying the rectangularity invariant (at
least one row, and every row as long as the first) and every i32 coordinate
`c`, `get(c)` never panics: it returns a copy of the stored element when `c`
lies within `[0, rows) × [0, cols)` and reports absence (`None`)
otherwise. -/
theorem board_get_total_of_rect (b : Board T) (rows cols : Nat) (c : Coord)
    (hsz : b.size? = some (rows, cols))
    (hrect : ∀ row ∈ b.matrix, row.length = cols)
    (hc32 : coordIsI32 c.row c.col) :
    b.get c ≠ none ∧
    ((0 ≤ c.row ∧ c.row < (rows : Int) ∧ 0 ≤ c.col ∧ c.col < (cols : Int)) →
      b.get c = some (b.cellAt c) ∧ (b.cellAt c).isSome = true) ∧
    (¬(0 ≤ c.row ∧ c.row < (rows : Int) ∧ 0 ≤ c.col ∧ c.col < (cols : Int)) →
      b.get c = some none) := by
  obtain ⟨-, h31r, -, h31c⟩ := hc32
  by_cases hib : 0 ≤ c.row ∧ c.row < (rows : Int) ∧ 0 ≤ c.col ∧ c.col < (cols : Int)
  · obtain ⟨hget, hsome⟩ := get_of_rect_inbounds b rows cols c hsz hrect
      hib.1 hib.2.1 hib.2.2.1 hib.2.2.2 h31r h31c
    exact ⟨by rw [hget]; simp, fun _ => ⟨hget, hsome⟩, fun hn => absurd hib hn⟩
  · have hget := get_of_rect_outbounds b rows cols c hsz hib h31r h31c
    exact ⟨by rw [hget]; simp, fun hy => absurd hy hib, fun _ => hget⟩

/-- C1 witness: the amended theorem instantiated on the 2×2 board
`[[1,2],[3,4]]` at the in-bounds coordinate `(1,0)`. -/
theorem board_get_total_of_rect_wit :
    ((Board.mk [[1, 2], [3, 4]] : Board Nat).size? = some (2, 2)) ∧
    (∀ row ∈ (Board.mk [[1, 2], [3, 4]] : Board Nat).matrix, row.length = 2) ∧
    coordIsI32 (Coord.mk 1 0).row (Coord.mk 1 0).col ∧
    ((Board.mk [[1, 2], [3, 4]] : Board Nat).get ⟨1, 0⟩ ≠ none ∧
     ((0 ≤ (1 : Int) ∧ (1 : Int) < ((2 : Nat) : Int) ∧ 0 ≤ (0 : Int) ∧ (0 : Int) < ((2 : Nat) : Int)) →
       (Board.mk [[1, 2], [3, 4]] : Board Nat).get ⟨1, 0⟩ =
         some ((Board.mk [[1, 2], [3, 4]] : Board Nat).cellAt ⟨1, 0⟩) ∧
       ((Board.mk [[1, 2], [3, 4]] : Board Nat).cellAt ⟨1, 0⟩).isSome = true) ∧
     (¬(0 ≤ (1 : Int) ∧ (1 : Int) < ((2 : Nat) : Int) ∧ 0 ≤ (0 : Int) ∧ (0 : Int) < ((2 : Nat) : Int)) →
       (Board.mk [[1, 2], [3, 4]] : Board Nat).get ⟨1, 0⟩ = some none)) :=
  ⟨by decide, by decide, by decide,
    board_get_total_of_rect (Board.mk [[1, 2], [3, 4]]) 2 2 ⟨1, 0⟩
      (by decide) (by decide) (by decide)⟩

/-- C9 counterexample: on the ragged board `[[10,11],[12]]`, whose `size()` is
`(2,2)`, writing at the in-bounds, non-negative coordinate `(1,1)` panics
(indexing past the end of row 1, modelled as `none`) instead of overwriting the
cell, so the claim fails for a board that is not rectangular. -/
theorem board_set_ragged_panics :
    (Board.mk [[10, 11], [12]] : Board Nat).size? = some (2, 2) ∧
    (Board.mk [[10, 11], [12]] : Board Nat).set ⟨1, 1⟩ 5 = none := by
  constructor
  · rfl
  · rfl

/-- C9 amended: for every board satisfying the rectangularity invariant, every
in-bounds i32 coordinate `c` with non-negative components and every value `v`,
`set(c, v)` succeeds, a subsequent `get(c)` returns `v`, and every other cell
(any coordinate with non-negative components different from `c`) is
unchanged — including on boards built by the uniform-fill constructor
`from_size`. -/
theorem board_set_frame (b : Board T) (rows cols : Nat) (c : Coord) (v : T)
    (hsz : b.size? = some (rows, cols))
    (hrect : ∀ row ∈ b.matrix, row.length = cols)
    (hc32 : coordIsI32 c.row c.col)
    (hr0 : 0 ≤ c.row) (hr1 : c.row < (rows : Int))
    (hc0 : 0 ≤ c.col) (hc1 : c.col < (cols : Int)) :
    ∃ b2, b.set c v = some b2 ∧ b2.get c = some (some v) ∧
      ∀ c2 : Coord, 0 ≤ c2.row → 0 ≤ c2.col → c2 ≠ c → b2.cellAt c2 = b.cellAt c2 := by
  obtain ⟨-, h31r, -, h31c⟩ := hc32
  have hpow : (2 : Int) ^ 31 < 2 ^ 64 := by norm_num
  have eqr : i32ToUsize c.row = c.row.toNat := i32ToUsize_eq_toNat hr0 (lt_trans h31r hpow)
  have eqc : i32ToUsize c.col = c.col.toNat := i32ToUsize_eq_toNat hc0 (lt_trans h31c hpow)
  obtain ⟨hrows, -⟩ := size?_spec b hsz
  have hrowlt : c.row.toNat < b.matrix.length := by omega
  have hrowget : b.matrix[c.row.toNat]? = some (b.matrix[c.row.toNat]) :=
    List.getElem?_eq_getElem hrowlt
  have hlen : (b.matrix[c.row.toNat]).length = cols := hrect _ (List.getElem_mem hrowlt)
  have hcollt : c.col.toNat < (b.matrix[c.row.toNat]).length := by omega
  refine ⟨⟨b.matrix.set c.row.toNat ((b.matrix[c.row.toNat]).set c.col.toNat v)⟩, ?_, ?_, ?_⟩
  · simp only [Board.set, eqr, eqc, hrowget]
    rw [if_pos hcollt]
  · have hlen2 : (b.matrix.set c.row.toNat
        ((b.matrix[c.row.toNat]).set c.col.toNat v)).length = b.matrix.length :=
      List.length_set b.matrix c.row.toNat ((b.matrix[c.row.toNat]).set c.col.toNat v)
    have hrect2 : ∀ r ∈ b.matrix.set c.row.toNat
        ((b.matrix[c.row.toNat]).set c.col.toNat v), r.length = cols := by
      intro r hrmem
      rw [List.mem_iff_getElem] at hrmem
      obtain ⟨k, hk, hkr⟩ := hrmem
      rw [List.length_set] at hk
      rw [List.getElem_set] at hkr
      by_cases hik : c.row.toNat = k
      · rw [if_pos hik] at hkr
        rw [← hkr, List.length_set]
        exact hlen
      · rw [if_neg hik] at hkr
        rw [← hkr]
        exact hrect _ (List.getElem_mem hk)
    have hne2 : (b.matrix.set c.row.toNat
        ((b.matrix[c.row.toNat]).set c.col.toNat v)) ≠ [] := by
      apply List.length_pos.mp
      rw [hlen2]
      omega
    obtain ⟨h0, t, hm2⟩ := List.exists_cons_of_ne_nil hne2
    have hh0 : h0.length = cols := hrect2 h0 (by rw [hm2]; exact List.mem_cons_self h0 t)
    have hlencons : (h0 :: t).length = b.matrix.length := by
      rw [← hm2, hlen2]
    have hsz2 : (Board.mk (b.matrix.set c.row.toNat
        ((b.matrix[c.row.toNat]).set c.col.toNat v)) : Board T).size? = some (rows, cols) := by
      unfold Board.size?
      rw [show (Board.mk (b.matrix.set c.row.toNat
        ((b.matrix[c.row.toNat]).set c.col.toNat v)) : Board T).matrix =
          b.matrix.set c.row.toNat ((b.matrix[c.row.toNat]).set c.col.toNat v) from rfl, hm2]
      show some ((h0 :: t).length, h0.length) = some (rows, cols)
      rw [hlencons, hh0, hrows]
    obtain ⟨hget2, -⟩ := get_of_rect_inbounds _ rows cols c hsz2 hrect2 hr0 hr1 hc0 hc1 h31r h31c
    rw [hget2]
    have hcell2 : (Board.mk (b.matrix.set c.row.toNat
        ((b.matrix[c.row.toNat]).set c.col.toNat v)) : Board T).cellAt c = some v := by
      unfold Board.cellAt
      rw [show (Board.mk (b.matrix.set c.row.toNat
        ((b.matrix[c.row.toNat]).set c.col.toNat v)) : Board T).matrix =
          b.matrix.set c.row.toNat ((b.matrix[c.row.toNat]).set c.col.toNat v) from rfl]
      rw [List.getElem?_set, if_pos rfl, if_pos hrowlt, Option.some_bind,
        List.getElem?_set, if_pos rfl, if_pos hcollt]
    rw [hcell2]
  · intro c2 h20 h21 hne
    have hij : ¬(c2.row.toNat = c.row.toNat ∧ c2.col.toNat = c.col.toNat) := by
      rintro ⟨e1, e2⟩
      exact hne (coord_ext (by omega) (by omega))
    unfold Board.cellAt
    rw [show (Board.mk (b.matrix.set c.row.toNat
        ((b.matrix[c.row.toNat]).set c.col.toNat v)) : Board T).matrix =
          b.matrix.set c.row.toNat ((b.matrix[c.row.toNat]).set c.col.toNat v) from rfl]
    by_cases hrr : c.row.toNat = c2.row.toNat
    · have h1 : (b.matrix.set c.row.toNat
          ((b.matrix[c.row.toNat]).set c.col.toNat v))[c2.row.toNat]? =
            some ((b.matrix[c.row.toNat]).set c.col.toNat v) := by
        rw [List.getElem?_set, if_pos hrr, if_pos hrowlt]
      have h2 : b.matrix[c2.row.toNat]? = some (b.matrix[c.row.toNat]) := by
        rw [← hrr]
        exact hrowget
      rw [h1, h2, Option.some_bind, Option.some_bind,
        List.getElem?_set, if_neg (by omega : ¬(c.col.toNat = c2.col.toNat))]
    · have h1 : (b.matrix.set c.row.toNat
          ((b.matrix[c.row.toNat]).set c.col.toNat v))[c2.row.toNat]? =
            b.matrix[c2.row.toNat]? := by
        rw [List.getElem?_set, if_neg hrr]
      rw [h1]

/-- C9 witness: the amended theorem instantiated on the uniform-fill board
`from_size((2,2), 0)` at coordinate `(0,1)` with value `7`. -/
theorem board_set_frame_wit :
    ((Board.from_size ⟨2, 2⟩ (0 : Nat)).size? = some (2, 2)) ∧
    (∀ row ∈ (Board.from_size ⟨2, 2⟩ (0 : Nat)).matrix, row.length = 2) ∧
    coordIsI32 (Coord.mk 0 1).row (Coord.mk 0 1).col ∧
    (∃ b2, (Board.from_size ⟨2, 2⟩ (0 : Nat)).set ⟨0, 1⟩ 7 = some b2 ∧
      b2.get ⟨0, 1⟩ = some (some 7) ∧
      ∀ c2 : Coord, 0 ≤ c2.row → 0 ≤ c2.col → c2 ≠ ⟨0, 1⟩ →
        b2.cellAt c2 = (Board.from_size ⟨2, 2⟩ (0 : Nat)).cellAt c2) :=
  ⟨by decide, by decide, by decide,
    board_set_frame (Board.from_size ⟨2, 2⟩ 0) 2 2 ⟨0, 1⟩ 7
      (by decide) (by decide) (by decide) (by decide) (by decide) (by decide) (by decide)⟩

end Grid2d
